import Mathlib

/-!
# Verification of the web-midi-editor core

Shallow embedding of the undo/redo command engine (`src/action.rs`), the
MIDI export encoder (`src/midi.rs`), the pointer-geometry utilities
(`src/util.rs`) and the piano-roll drag update (`src/main.rs`,
`Msg::PianoRollMouseMove`) of the web-midi-editor repository.

Modelling conventions:
* Rust `f64` values (note offsets and lengths, pixel coordinates) are
  modelled as `ℚ`.  All float operations used by the embedded code
  (`+`, `-`, `*`, `/`, `min`, `max`, comparisons, `%`, `round`, `ceil`,
  casts to integers) are exact on the dyadic inputs used by every
  concrete witness and counterexample below, so the rational model
  agrees with IEEE double arithmetic there.
* Rust `u8`/`u32`/`usize` are modelled as `ℕ`; the one place where the
  `u32` range matters (the saturating `as u32` float cast in the MIDI
  encoder) saturates explicitly.
* Rust panics (out-of-range `Vec` indexing / `Vec::remove`) are modelled
  by `Option`: a panicking call is `none`.
* `Vec` used as a stack (`push`/`pop` at the end) is modelled as a Lean
  `List` with `push = cons` and `pop = head/tail`.
-/

namespace WME

/-- `src/project.rs`: `NOTE_RECT_HEIGHT` (pixel height of one pitch row). -/
def NOTE_RECT_HEIGHT : ℚ := 30

/-- `src/project.rs`: `WHOLE_NOTE_WIDTH` (pixel width of a whole note). -/
def WHOLE_NOTE_WIDTH : ℚ := 320

/-- `src/project.rs`: `MIN_DIVISION`. -/
def MIN_DIVISION : ℕ := 16

/-- `src/project.rs`: `MIN_INTERVAL = 1.0 / MIN_DIVISION as f64`. -/
def MIN_INTERVAL : ℚ := 1 / (MIN_DIVISION : ℚ)

/-- `src/project.rs`: `struct Note`. Offsets and lengths are in whole notes. -/
structure Note where
  pitch : ℕ
  velocity : ℕ
  offset : ℚ
  length : ℚ
deriving DecidableEq, Repr

/-- `src/project.rs`: `struct Track`. -/
structure Track where
  name : String
  notes : List Note
  instrument : ℕ
deriving DecidableEq, Repr

/-- `src/project.rs`: `struct TimeSignature`. -/
structure TimeSignature where
  top : ℕ
  bottom : ℕ
deriving DecidableEq, Repr

/-- `src/project.rs`: `struct Project`. -/
structure Project where
  name : String
  time_signature : TimeSignature
  bpm : ℕ
  tracks : List Track
deriving DecidableEq, Repr

/-- `src/action.rs`: `enum Action`, the command catalogue. -/
inductive Action where
  | RenameProject (name : String)
  | SetBpm (bpm : ℕ)
  | SetTimeSignatureTop (top : ℕ)
  | SetTimeSignatureBottom (bottom : ℕ)
  | CreateTrack (track : Track)
  | DeleteTrack (index : ℕ)
  | RenameTrack (index : ℕ) (name : String)
  | SetTrackInstrument (index : ℕ) (instrument : ℕ)
  | CreateNote (trackIndex : ℕ) (note : Note)
  | DeleteNote (trackIndex : ℕ) (noteIndex : ℕ)
  | EditNote (trackIndex : ℕ) (noteIndex : ℕ) (offset : ℚ) (pitch : ℕ) (length : ℚ)
deriving DecidableEq, Repr

/-- The part of the `Model` struct (`src/main.rs`) that
`perform_action_impl` reads and writes: the project and the selected
track index.  The undo/redo stacks live in `Model` below. -/
structure EditorState where
  project : Project
  selected_track_index : Option ℕ
deriving DecidableEq, Repr

/-- The `Model` fields of `src/main.rs` relevant to the command engine:
the editor state plus the two command stacks. -/
structure Model where
  project : Project
  selected_track_index : Option ℕ
  undo_stack : List Action
  redo_stack : List Action
deriving DecidableEq, Repr

/-- The editor state carried inside a `Model`. -/
def Model.state (m : Model) : EditorState :=
  ⟨m.project, m.selected_track_index⟩

/-- `src/action.rs`: `perform_action_impl`.  Applies a command to the
editor state and returns the updated state together with the inverse
command; `none` models the Rust panic on an out-of-range index
(`Vec::remove` / `Vec` indexing). -/
def performActionImpl (s : EditorState) : Action → Option (EditorState × Action)
  | .RenameProject newName =>
      some ({ s with project := { s.project with name := newName } },
            .RenameProject s.project.name)
  | .SetBpm newBpm =>
      some ({ s with project := { s.project with bpm := newBpm } },
            .SetBpm s.project.bpm)
  | .SetTimeSignatureTop top =>
      some ({ s with project :=
                { s.project with time_signature := { s.project.time_signature with top := top } } },
            .SetTimeSignatureTop s.project.time_signature.top)
  | .SetTimeSignatureBottom bottom =>
      some ({ s with project :=
                { s.project with time_signature := { s.project.time_signature with bottom := bottom } } },
            .SetTimeSignatureBottom s.project.time_signature.bottom)
  | .CreateTrack track =>
      let oldLen := s.project.tracks.length
      some ({ project := { s.project with tracks := s.project.tracks ++ [track] },
              selected_track_index :=
                if oldLen = 0 then some 0 else s.selected_track_index },
            .DeleteTrack oldLen)
  | .DeleteTrack index =>
      let sel : Option ℕ :=
        match s.selected_track_index with
        | some sti => if index = sti then none else some sti
        | none => none
      match s.project.tracks[index]? with
      | none => none
      | some track =>
          some ({ project := { s.project with tracks := s.project.tracks.eraseIdx index },
                  selected_track_index := sel },
                .CreateTrack track)
  | .RenameTrack index newName =>
      match s.project.tracks[index]? with
      | none => none
      | some track =>
          some ({ s with project :=
                    { s.project with
                        tracks := s.project.tracks.set index { track with name := newName } } },
                .RenameTrack index track.name)
  | .SetTrackInstrument index instrument =>
      match s.project.tracks[index]? with
      | none => none
      | some track =>
          some ({ s with project :=
                    { s.project with
                        tracks := s.project.tracks.set index { track with instrument := instrument } } },
                .SetTrackInstrument index track.instrument)
  | .CreateNote trackIndex note =>
      match s.project.tracks[trackIndex]? with
      | none => none
      | some track =>
          some ({ s with project :=
                    { s.project with
                        tracks := s.project.tracks.set trackIndex
                          { track with notes := track.notes ++ [note] } } },
                .DeleteNote trackIndex track.notes.length)
  | .DeleteNote trackIndex noteIndex =>
      match s.project.tracks[trackIndex]? with
      | none => none
      | some track =>
          match track.notes[noteIndex]? with
          | none => none
          | some note =>
              some ({ s with project :=
                        { s.project with
                            tracks := s.project.tracks.set trackIndex
                              { track with notes := track.notes.eraseIdx noteIndex } } },
                    .CreateNote trackIndex note)
  | .EditNote trackIndex noteIndex newOffset newPitch newLength =>
      match s.project.tracks[trackIndex]? with
      | none => none
      | some track =>
          match track.notes[noteIndex]? with
          | none => none
          | some note =>
              let note' : Note :=
                { note with offset := newOffset, pitch := newPitch, length := newLength }
              let track' : Track := { track with notes := track.notes.set noteIndex note' }
              some ({ s with project :=
                        { s.project with tracks := s.project.tracks.set trackIndex track' } },
                    .EditNote trackIndex noteIndex note.offset note.pitch note.length)

/-- `src/action.rs`: `perform_action`.  Applies the command and pushes
the returned inverse onto the undo stack.  The redo stack is not
touched. -/
def performAction (m : Model) (action : Action) : Option Model :=
  (performActionImpl m.state action).map fun r =>
    { project := r.1.project
      selected_track_index := r.1.selected_track_index
      undo_stack := r.2 :: m.undo_stack
      redo_stack := m.redo_stack }

/-- `src/action.rs`: `undo_last`.  Pops from the undo stack (no-op when
empty), applies the popped command and pushes its inverse onto the redo
stack. -/
def undoLast (m : Model) : Option Model :=
  match m.undo_stack with
  | [] => some m
  | action :: rest =>
      (performActionImpl m.state action).map fun r =>
        { project := r.1.project
          selected_track_index := r.1.selected_track_index
          undo_stack := rest
          redo_stack := r.2 :: m.redo_stack }

/-- `src/action.rs`: `redo_last`.  Pops from the redo stack (no-op when
empty), applies the popped command and pushes its inverse onto the undo
stack. -/
def redoLast (m : Model) : Option Model :=
  match m.redo_stack with
  | [] => some m
  | action :: rest =>
      (performActionImpl m.state action).map fun r =>
        { project := r.1.project
          selected_track_index := r.1.selected_track_index
          undo_stack := r.2 :: m.undo_stack
          redo_stack := rest }

/-- A valid editor state: the selected track index, when present, is in
range (spec §3: a selection never dangles). -/
def EditorState.Valid (s : EditorState) : Prop :=
  ∀ i, s.selected_track_index = some i → i < s.project.tracks.length

/-- The two commands whose inverse re-appends the removed element at the
end of the list instead of re-inserting it at the original index. -/
def Action.isDeletion : Action → Bool
  | .DeleteTrack _ => true
  | .DeleteNote _ _ => true
  | _ => false

/-! ## MIDI export encoder (`src/midi.rs`) -/

/-- `src/midi.rs`: `enum MidiMessageType`. -/
inductive MidiMessageType where
  | ChangeInstrument (instrument : ℕ)
  | NoteOn (pitch : ℕ) (velocity : ℕ)
  | NoteOff (pitch : ℕ) (velocity : ℕ)
deriving DecidableEq, Repr

/-- `src/midi.rs`: `struct MidiMessage`; `offset` is in whole notes. -/
structure MidiMessage where
  offset : ℚ
  type_ : MidiMessageType
deriving DecidableEq, Repr

/-- `src/midi.rs`: `MidiMessageType::to_bytes`. -/
def MidiMessageType.toBytes : MidiMessageType → List ℕ
  | .ChangeInstrument instrument => [0xC0, instrument]
  | .NoteOn pitch velocity => [0x90, pitch, velocity]
  | .NoteOff pitch velocity => [0x80, pitch, velocity]

/-- The three messages `Project::to_midi` emits for one note:
`ChangeInstrument` and `NoteOn` at the note's offset, `NoteOff` at
`offset + length`, velocity `0x7f`. -/
def noteMessages (instrument : ℕ) (n : Note) : List MidiMessage :=
  [⟨n.offset, .ChangeInstrument instrument⟩,
   ⟨n.offset, .NoteOn n.pitch 0x7f⟩,
   ⟨n.offset + n.length, .NoteOff n.pitch 0x7f⟩]

/-- The unsorted message stream of `Project::to_midi`: per track, per
note, in emission order. -/
def rawMessages (p : Project) : List MidiMessage :=
  p.tracks.flatMap fun t => t.notes.flatMap (noteMessages t.instrument)

/-- The comparison used by `messages.sort_by(|a, b|
a.offset.partial_cmp(&b.offset).unwrap())`: order by offset.  Offsets
are rationals, so `partial_cmp` never returns `None`. -/
def msgLe (a b : MidiMessage) : Prop := a.offset ≤ b.offset

instance : DecidableRel msgLe := fun a b =>
  inferInstanceAs (Decidable (a.offset ≤ b.offset))

instance : IsTotal MidiMessage msgLe := ⟨fun a b => le_total a.offset b.offset⟩

instance : IsTrans MidiMessage msgLe := ⟨fun _ _ _ h h' => le_trans h h'⟩

/-- `src/midi.rs`: `Project::to_midi`.  Rust's `sort_by` is a stable
sort; any stable sort by the same total preorder produces the same
list, so insertion sort (which is stable) is a faithful model. -/
def Project.toMidi (p : Project) : List MidiMessage :=
  List.insertionSort msgLe (rawMessages p)

/-- The loop of `src/midi.rs`: `to_varlen`: while `number ≠ 0`, prepend
`number & 0x7f | 0x80` and shift `number` right by 7.  The first
argument is fuel bounding the iteration count (the loop runs at most
`log₁₂₈ number + 1` times, so any fuel ≥ `number` suffices); fuel makes
the recursion structural. -/
def varlenLoop : ℕ → ℕ → List ℕ → List ℕ
  | 0, _, bytes => bytes
  | fuel + 1, number, bytes =>
      if number = 0 then bytes
      else varlenLoop fuel (number / 128) ((number % 128 + 0x80) :: bytes)

/-- `src/midi.rs`: `to_varlen`: variable-length-quantity encoding.
Starts from `[value & 0x7f]` and runs the prepend loop on
`value >> 7`. -/
def toVarlen (value : ℕ) : List ℕ :=
  varlenLoop value (value / 128) [value % 128]

/-- Rust's saturating `f64 as u32` cast: truncation toward zero, clamped
to `[0, 2^32 - 1]`.  On a rational `q`, truncation toward zero of a
negative value is then clamped to `0`, so `Int.toNat ⌊q⌋` (which is `0`
for all `q < 0`) computes it. -/
def rustF64ToU32 (q : ℚ) : ℕ :=
  min (2 ^ 32 - 1) (Int.toNat ⌊q⌋)

/-- Rust's `f64::round`: round half away from zero. -/
def rustRound (q : ℚ) : ℤ :=
  if 0 ≤ q then ⌊q + 1 / 2⌋ else -⌊-q + 1 / 2⌋

/-- `src/midi.rs` line 107: `delta_multiplier = (480.0 / bpm *
ticks_per_quarter_note as f64).round() as u32` with
`ticks_per_quarter_note = 1024`.  For `bpm = 0` the float quotient is
`+∞` and the saturating cast yields `u32::MAX`. -/
def deltaMultiplier (bpm : ℕ) : ℕ :=
  if bpm = 0 then 2 ^ 32 - 1
  else min (2 ^ 32 - 1) (Int.toNat (rustRound ((480 : ℚ) / bpm * 1024)))

/-- The per-message loop of `export_midi`: for each message, emit the
variable-length encoding of `(offset − last_offset) * delta_multiplier`
cast with `as u32` (truncation), then the status/data bytes, carrying
the message's offset as the new `last_offset`. -/
def trackBody (mult : ℕ) : ℚ → List MidiMessage → List ℕ
  | _, [] => []
  | lastOffset, msg :: rest =>
      toVarlen (rustF64ToU32 ((msg.offset - lastOffset) * mult))
        ++ msg.type_.toBytes ++ trackBody mult msg.offset rest

/-- Big-endian bytes of a `u16` (`to_be_bytes`). -/
def u16BE (n : ℕ) : List ℕ := [n / 2 ^ 8 % 256, n % 256]

/-- Big-endian bytes of a `u32` (`to_be_bytes`). -/
def u32BE (n : ℕ) : List ℕ :=
  [n / 2 ^ 24 % 256, n / 2 ^ 16 % 256, n / 2 ^ 8 % 256, n % 256]

/-- The ASCII bytes of `"MThd"`. -/
def mthdBytes : List ℕ := [77, 84, 104, 100]

/-- The ASCII bytes of `"MTrk"`. -/
def mtrkBytes : List ℕ := [77, 84, 114, 107]

/-- `src/midi.rs`: `export_midi`.  Header chunk (`MThd`, length 6,
format 0, ntrks 1, division 1024), then `MTrk`, then the track length
field — written from `track_bytes.len()` BEFORE the four end-of-track
bytes `00 FF 2F 00` are appended — then the track bytes and the
end-of-track marker. -/
def exportMidi (p : Project) : List ℕ :=
  let track_bytes := trackBody (deltaMultiplier p.bpm) 0 p.toMidi
  mthdBytes ++ u32BE 6 ++ u16BE 0 ++ u16BE 1 ++ u16BE 1024
    ++ mtrkBytes ++ u32BE track_bytes.length
    ++ track_bytes ++ [0, 0xFF, 0x2F, 0]

/-- Modelled from the spec's words for comparison with `exportMidi`
(claim C6): identical to `export_midi` except that each delta-time is
`round(Δoffset × delta_multiplier)` — rounded, as §4.3 step 3 states —
instead of the truncating `as u32` cast the code performs. -/
def trackBodyRoundSpec (mult : ℕ) : ℚ → List MidiMessage → List ℕ
  | _, [] => []
  | lastOffset, msg :: rest =>
      toVarlen (Int.toNat (rustRound ((msg.offset - lastOffset) * mult)))
        ++ msg.type_.toBytes ++ trackBodyRoundSpec mult msg.offset rest

/-- Modelled from the spec's words (claim C6): `export_midi` with the
rounded delta-time formula of §4.3 step 3. -/
def exportMidiRoundSpec (p : Project) : List ℕ :=
  let track_bytes := trackBodyRoundSpec (deltaMultiplier p.bpm) 0 p.toMidi
  mthdBytes ++ u32BE 6 ++ u16BE 0 ++ u16BE 1 ++ u16BE 1024
    ++ mtrkBytes ++ u32BE track_bytes.length
    ++ track_bytes ++ [0, 0xFF, 0x2F, 0]

/-- The consecutive-delta view of a message stream: pairs each message
with its offset minus the previous message's offset (the first message
is paired against `lastOffset`). -/
def deltaPairs : ℚ → List MidiMessage → List (ℚ × MidiMessage)
  | _, [] => []
  | lastOffset, msg :: rest => (msg.offset - lastOffset, msg) :: deltaPairs msg.offset rest

/-! ## Geometry utilities (`src/util.rs`) and the piano-roll drag
(`src/main.rs`) -/

/-- Truncation toward zero, as Rust's `%` on floats truncates. -/
def truncQ (q : ℚ) : ℤ := if 0 ≤ q then ⌊q⌋ else ⌈q⌉

/-- Rust's `f64 % f64`: remainder with the sign of the dividend,
`x - p * trunc(x / p)`. -/
def rustFmod (x p : ℚ) : ℚ := x - p * truncQ (x / p)

/-- `src/util.rs`: `snap(x, precision)`: round to a multiple of
`precision`, rounding up when the remainder is at least half the
precision. -/
def snap (x precision : ℚ) : ℚ :=
  let f_mod := rustFmod x precision
  if precision / 2 ≤ f_mod then x - f_mod + precision else x - f_mod

/-- `src/util.rs`: `mouse_x_to_interval`. -/
def mouseXToInterval (mouseX : ℚ) : ℚ :=
  snap (mouseX / WHOLE_NOTE_WIDTH) MIN_INTERVAL

/-- `src/util.rs`: `mouse_y_to_pitch`: `(127.0 - mouse_y /
NOTE_RECT_HEIGHT).clamp(0.0, 127.0).ceil() as u8`.  The clamped value
lies in `[0, 127]`, so its ceiling fits a `u8` and the cast is exact. -/
def mouseYToPitch (mouseY : ℚ) : ℕ :=
  Int.toNat ⌈min 127 (max 0 (127 - mouseY / NOTE_RECT_HEIGHT))⌉

/-- Modelled from the spec's words for comparison with `mouseYToPitch`
(claim C10): `clamp(round(127 - pointerY/rowHeightPx), 0, 127)` —
nearest-pitch rounding, clamp applied to the rounded integer. -/
def mouseYToPitchRoundSpec (mouseY : ℚ) : ℕ :=
  Int.toNat (min 127 (max 0 (rustRound (127 - mouseY / NOTE_RECT_HEIGHT))))

/-- `src/main.rs`: `enum NoteOperationType`. -/
inductive NoteOperationType where
  | DragLeftEdge (origOffset : ℚ) (origLength : ℚ)
  | DragRightEdge (origLength : ℚ)
  | Move (grabOffset : ℚ) (origOffset : ℚ) (origPitch : ℕ)
  | CreateAndMove
deriving DecidableEq, Repr

/-- The pitch computed in `Msg::PianoRollMouseMove` (`src/main.rs` lines
339–341): `127 - (mouse_y / NOTE_RECT_HEIGHT - 0.5).round().clamp(0.0,
127.0) as u8`. -/
def mouseMovePitch (mouseY : ℚ) : ℕ :=
  127 - Int.toNat (min 127 (max 0 (rustRound (mouseY / NOTE_RECT_HEIGHT - 1 / 2))))

/-- The four drag arms of `Msg::PianoRollMouseMove` (`src/main.rs` lines
343–365), before the length floor is applied. -/
def dragRaw (op : NoteOperationType) (mouseX mouseY : ℚ) (note : Note) : Note :=
  let offset := mouseXToInterval mouseX
  let pitch := mouseMovePitch mouseY
  match op with
  | .Move grabOffset _ _ => { note with offset := offset - grabOffset, pitch := pitch }
  | .CreateAndMove => { note with offset := offset, pitch := pitch }
  | .DragLeftEdge _ _ =>
      let offset' := min offset (note.offset + note.length - MIN_INTERVAL)
      { note with length := note.length + (note.offset - offset'), offset := offset' }
  | .DragRightEdge _ =>
      let offset' := max offset (note.offset - note.length + MIN_INTERVAL)
      { note with length := offset' - note.offset + MIN_INTERVAL }

/-- The length floor applied after every drag arm (`src/main.rs` lines
367–369): `if note.length < 1e-4 { note.length = MIN_INTERVAL; }`. -/
def lengthFloor (note : Note) : Note :=
  if note.length < 1 / 10000 then { note with length := MIN_INTERVAL } else note

/-- The complete note update of one `Msg::PianoRollMouseMove` drag step:
the drag arm followed by the length floor. -/
def dragUpdate (op : NoteOperationType) (mouseX mouseY : ℚ) (note : Note) : Note :=
  lengthFloor (dragRaw op mouseX mouseY note)

/-! ## Helper lemmas -/

theorem eraseIdx_concat_length {α : Type _} (l : List α) (a : α) :
    (l ++ [a]).eraseIdx l.length = l := by
  induction l with
  | nil => rfl
  | cons x xs ih => simpa using ih

theorem lt_length_of_getElem?_eq_some {α : Type _} {l : List α} {i : ℕ} {a : α}
    (h : l[i]? = some a) : i < l.length := by
  by_contra hge
  rw [List.getElem?_eq_none (Nat.le_of_not_lt hge)] at h
  exact Option.noConfusion h

theorem set_getElem?_self {α : Type _} {l : List α} {i : ℕ} {a : α}
    (h : l[i]? = some a) : l.set i a = l := by
  induction l generalizing i with
  | nil => simp at h
  | cons x xs ih =>
      cases i with
      | zero => simp at h; simp [h]
      | succ j => simpa using ih (by simpa using h)

/-! ## Claims -/

/-- **C7** — Variable-length-quantity encoding of delta-times satisfies:
`to_varlen(0) = [0x00]`, `to_varlen(127) = [0x7F]`,
`to_varlen(128) = [0x81, 0x00]`, `to_varlen(16384) = [0x81, 0x80, 0x00]`. -/
theorem C7_toVarlen_values :
    toVarlen 0 = [0x00] ∧ toVarlen 127 = [0x7F] ∧
    toVarlen 128 = [0x81, 0x00] ∧ toVarlen 16384 = [0x81, 0x80, 0x00] := by
  decide

/-- **C4** — `undo_last` on an empty undo stack and `redo_last` on an
empty redo stack are no-ops, not errors: the returned model — project,
selection and both stacks — is exactly the input model. -/
theorem C4_empty_stacks_noop (m : Model) :
    (m.undo_stack = [] → undoLast m = some m) ∧
    (m.redo_stack = [] → redoLast m = some m) := by
  constructor
  · intro h
    unfold undoLast
    rw [h]
  · intro h
    unfold redoLast
    rw [h]

/-- Witness for C4 at a concrete model with both stacks empty. -/
theorem C4_empty_stacks_noop_witness :
    undoLast ⟨⟨"Untitled", ⟨4, 4⟩, 120, []⟩, none, [], []⟩ =
        some ⟨⟨"Untitled", ⟨4, 4⟩, 120, []⟩, none, [], []⟩ ∧
    redoLast ⟨⟨"Untitled", ⟨4, 4⟩, 120, []⟩, none, [], []⟩ =
        some ⟨⟨"Untitled", ⟨4, 4⟩, 120, []⟩, none, [], []⟩ :=
  ⟨(C4_empty_stacks_noop _).1 rfl, (C4_empty_stacks_noop _).2 rfl⟩

/-- **C3** — Performing a new action never clears the redo stack: when
`perform_action` succeeds it pushes exactly one inverse command onto the
undo stack and leaves the redo stack unchanged (same contents, same
order). -/
theorem C3_perform_preserves_redo (m : Model) (a : Action) (m' : Model)
    (h : performAction m a = some m') :
    m'.redo_stack = m.redo_stack ∧ ∃ inv, m'.undo_stack = inv :: m.undo_stack := by
  unfold performAction at h
  cases himpl : performActionImpl m.state a with
  | none => rw [himpl] at h; exact Option.noConfusion h
  | some r =>
      rw [himpl] at h
      simp only [Option.map_some', Option.some.injEq] at h
      subst h
      exact ⟨rfl, r.2, rfl⟩

/-- Witness for C3: a `SetBpm` on a model with a non-empty redo stack
leaves the redo stack untouched and pushes the single inverse. -/
theorem C3_perform_preserves_redo_witness :
    (⟨⟨"p", ⟨4, 4⟩, 90, []⟩, none, [Action.SetBpm 120, Action.SetBpm 60],
        [Action.SetBpm 100]⟩ : Model).redo_stack =
      (⟨⟨"p", ⟨4, 4⟩, 120, []⟩, none, [Action.SetBpm 60],
        [Action.SetBpm 100]⟩ : Model).redo_stack ∧
    ∃ inv, (⟨⟨"p", ⟨4, 4⟩, 90, []⟩, none, [Action.SetBpm 120, Action.SetBpm 60],
        [Action.SetBpm 100]⟩ : Model).undo_stack =
      inv :: (⟨⟨"p", ⟨4, 4⟩, 120, []⟩, none, [Action.SetBpm 60],
        [Action.SetBpm 100]⟩ : Model).undo_stack :=
  C3_perform_preserves_redo
    ⟨⟨"p", ⟨4, 4⟩, 120, []⟩, none, [Action.SetBpm 60], [Action.SetBpm 100]⟩
    (.SetBpm 90) _ rfl


/-- **C2** — Index-shift asymmetry: from a project whose tracks are
`[A, B, C]`, `DeleteTrack(1)` leaves the tracks `[A, C]`; `undo_last`
then leaves `[A, C, B]` (`B` re-appended at the end), not `[A, B, C]`. -/
theorem C2_deleteTrack_undo_reappends (m : Model) (A B C : Track)
    (h : m.project.tracks = [A, B, C])
    (m₁ : Model) (h₁ : performAction m (.DeleteTrack 1) = some m₁) :
    m₁.project.tracks = [A, C] ∧
    ∀ m₂, undoLast m₁ = some m₂ → m₂.project.tracks = [A, C, B] := by
  unfold performAction at h₁
  simp only [performActionImpl, Model.state, h] at h₁
  simp only [show ([A, B, C][1]? = some B) from rfl, Option.map_some',
    Option.some.injEq] at h₁
  subst h₁
  refine ⟨rfl, ?_⟩
  intro m₂ h₂
  unfold undoLast at h₂
  simp only [performActionImpl] at h₂
  simp only [Option.map_some', Option.some.injEq] at h₂
  subst h₂
  rfl

/-- Witness for C2 at a concrete three-track model. -/
theorem C2_deleteTrack_undo_reappends_witness :
    (⟨⟨"p", ⟨4, 4⟩, 120,
        [⟨"a", [], 1⟩, ⟨"c", [], 3⟩]⟩, none,
        [Action.CreateTrack ⟨"b", [], 2⟩], []⟩ : Model).project.tracks =
      [⟨"a", [], 1⟩, ⟨"c", [], 3⟩] ∧
    ∀ m₂, undoLast ⟨⟨"p", ⟨4, 4⟩, 120,
        [⟨"a", [], 1⟩, ⟨"c", [], 3⟩]⟩, none,
        [Action.CreateTrack ⟨"b", [], 2⟩], []⟩ = some m₂ →
      m₂.project.tracks = [⟨"a", [], 1⟩, ⟨"c", [], 3⟩, ⟨"b", [], 2⟩] :=
  C2_deleteTrack_undo_reappends
    ⟨⟨"p", ⟨4, 4⟩, 120, [⟨"a", [], 1⟩, ⟨"b", [], 2⟩, ⟨"c", [], 3⟩]⟩, none, [], []⟩
    ⟨"a", [], 1⟩ ⟨"b", [], 2⟩ ⟨"c", [], 3⟩ rfl _ rfl


/-- **C1** — counterexample: the round-trip law fails as universally
stated.  Deleting track 1 of three and applying the returned inverse
(`CreateTrack`, which appends at the end) yields tracks `[A, C, B]`,
not the original `[A, B, C]`. -/
theorem C1_roundTrip_counterexample :
    (performActionImpl
        ⟨⟨"p", ⟨4, 4⟩, 120, [⟨"a", [], 1⟩, ⟨"b", [], 2⟩, ⟨"c", [], 3⟩]⟩, none⟩
        (.DeleteTrack 1)).bind
      (fun r => (performActionImpl r.1 r.2).map Prod.fst) ≠
    some ⟨⟨"p", ⟨4, 4⟩, 120, [⟨"a", [], 1⟩, ⟨"b", [], 2⟩, ⟨"c", [], 3⟩]⟩, none⟩ := by
  decide

/-- **C1 (amended)** — Round-trip law for the non-deletion commands: for
every valid state and every command other than `DeleteTrack` and
`DeleteNote`, applying the command via `perform_action_impl` and then
applying the returned inverse restores the exact prior state —
field-for-field, including the selection side effect of `CreateTrack`.
(For `DeleteTrack`/`DeleteNote` the removed element is re-appended at
the end instead, see C2.) -/
theorem C1_roundTrip_nonDeletion (s : EditorState) (c : Action)
    (hv : s.Valid) (hc : c.isDeletion = false)
    (s₁ s₂ : EditorState) (c' c'' : Action)
    (h₁ : performActionImpl s c = some (s₁, c'))
    (h₂ : performActionImpl s₁ c' = some (s₂, c'')) :
    s₂ = s := by
  obtain ⟨⟨pname, ⟨ptop, pbot⟩, pbpm, ptracks⟩, psel⟩ := s
  cases c with
  | DeleteTrack index => simp [Action.isDeletion] at hc
  | DeleteNote trackIndex noteIndex => simp [Action.isDeletion] at hc
  | RenameProject newName =>
      simp only [performActionImpl, Option.some.injEq, Prod.mk.injEq] at h₁
      obtain ⟨h₁s, h₁c⟩ := h₁
      subst h₁s; subst h₁c
      simp only [performActionImpl, Option.some.injEq, Prod.mk.injEq] at h₂
      exact h₂.1.symm
  | SetBpm newBpm =>
      simp only [performActionImpl, Option.some.injEq, Prod.mk.injEq] at h₁
      obtain ⟨h₁s, h₁c⟩ := h₁
      subst h₁s; subst h₁c
      simp only [performActionImpl, Option.some.injEq, Prod.mk.injEq] at h₂
      exact h₂.1.symm
  | SetTimeSignatureTop newTop =>
      simp only [performActionImpl, Option.some.injEq, Prod.mk.injEq] at h₁
      obtain ⟨h₁s, h₁c⟩ := h₁
      subst h₁s; subst h₁c
      simp only [performActionImpl, Option.some.injEq, Prod.mk.injEq] at h₂
      exact h₂.1.symm
  | SetTimeSignatureBottom newBottom =>
      simp only [performActionImpl, Option.some.injEq, Prod.mk.injEq] at h₁
      obtain ⟨h₁s, h₁c⟩ := h₁
      subst h₁s; subst h₁c
      simp only [performActionImpl, Option.some.injEq, Prod.mk.injEq] at h₂
      exact h₂.1.symm
  | CreateTrack track =>
      simp only [performActionImpl, Option.some.injEq, Prod.mk.injEq] at h₁
      obtain ⟨h₁s, h₁c⟩ := h₁
      subst h₁s; subst h₁c
      simp only [performActionImpl] at h₂
      rw [List.getElem?_concat_length] at h₂
      simp only [Option.some.injEq, Prod.mk.injEq] at h₂
      obtain ⟨h₂s, h₂c⟩ := h₂
      subst h₂s
      rw [eraseIdx_concat_length]
      by_cases hlen : ptracks.length = 0
      · have hpt : ptracks = [] := List.length_eq_zero.mp hlen
        subst hpt
        have hps : psel = none := by
          cases hpsel : psel with
          | none => rfl
          | some i =>
              have := hv i (by rw [hpsel])
              simp at this
        subst hps
        simp
      · simp only [if_neg hlen]
        cases hpsel : psel with
        | none => simp
        | some sti =>
            have hlt : sti < ptracks.length := hv sti (by rw [hpsel])
            have hne : ¬ ptracks.length = sti := by omega
            simp [hne]
  | RenameTrack index newName =>
      simp only [performActionImpl] at h₁
      cases htr : ptracks[index]? with
      | none => rw [htr] at h₁; exact Option.noConfusion h₁
      | some track =>
          obtain ⟨tname, tnotes, tinstr⟩ := track
          rw [htr] at h₁
          simp only [Option.some.injEq, Prod.mk.injEq] at h₁
          obtain ⟨h₁s, h₁c⟩ := h₁
          subst h₁s; subst h₁c
          have hidx : index < ptracks.length := lt_length_of_getElem?_eq_some htr
          simp only [performActionImpl] at h₂
          rw [List.getElem?_set_self (by simpa using hidx)] at h₂
          simp only [Option.some.injEq, Prod.mk.injEq] at h₂
          obtain ⟨h₂s, h₂c⟩ := h₂
          subst h₂s
          rw [List.set_set, set_getElem?_self htr]
  | SetTrackInstrument index newInstr =>
      simp only [performActionImpl] at h₁
      cases htr : ptracks[index]? with
      | none => rw [htr] at h₁; exact Option.noConfusion h₁
      | some track =>
          obtain ⟨tname, tnotes, tinstr⟩ := track
          rw [htr] at h₁
          simp only [Option.some.injEq, Prod.mk.injEq] at h₁
          obtain ⟨h₁s, h₁c⟩ := h₁
          subst h₁s; subst h₁c
          have hidx : index < ptracks.length := lt_length_of_getElem?_eq_some htr
          simp only [performActionImpl] at h₂
          rw [List.getElem?_set_self (by simpa using hidx)] at h₂
          simp only [Option.some.injEq, Prod.mk.injEq] at h₂
          obtain ⟨h₂s, h₂c⟩ := h₂
          subst h₂s
          rw [List.set_set, set_getElem?_self htr]
  | CreateNote trackIndex note =>
      simp only [performActionImpl] at h₁
      cases htr : ptracks[trackIndex]? with
      | none => rw [htr] at h₁; exact Option.noConfusion h₁
      | some track =>
          obtain ⟨tname, tnotes, tinstr⟩ := track
          rw [htr] at h₁
          simp only [Option.some.injEq, Prod.mk.injEq] at h₁
          obtain ⟨h₁s, h₁c⟩ := h₁
          subst h₁s; subst h₁c
          have hidx : trackIndex < ptracks.length := lt_length_of_getElem?_eq_some htr
          simp only [performActionImpl] at h₂
          simp only [List.getElem?_set_self (by simpa using hidx),
            List.getElem?_concat_length, Option.some.injEq, Prod.mk.injEq] at h₂
          obtain ⟨h₂s, h₂c⟩ := h₂
          subst h₂s
          rw [List.set_set, eraseIdx_concat_length, set_getElem?_self htr]
  | EditNote trackIndex noteIndex newOffset newPitch newLength =>
      simp only [performActionImpl] at h₁
      cases htr : ptracks[trackIndex]? with
      | none => rw [htr] at h₁; exact Option.noConfusion h₁
      | some track =>
          obtain ⟨tname, tnotes, tinstr⟩ := track
          simp only [htr] at h₁
          cases hnote : tnotes[noteIndex]? with
          | none => rw [hnote] at h₁; exact Option.noConfusion h₁
          | some note =>
              obtain ⟨npitch, nvel, noff, nlen⟩ := note
              simp only [hnote, Option.some.injEq, Prod.mk.injEq] at h₁
              obtain ⟨h₁s, h₁c⟩ := h₁
              subst h₁s; subst h₁c
              have hti : trackIndex < ptracks.length := lt_length_of_getElem?_eq_some htr
              have hni : noteIndex < tnotes.length := lt_length_of_getElem?_eq_some hnote
              simp only [performActionImpl] at h₂
              simp only [List.getElem?_set_self (by simpa using hti),
                List.getElem?_set_self (by simpa using hni),
                Option.some.injEq, Prod.mk.injEq] at h₂
              obtain ⟨h₂s, h₂c⟩ := h₂
              subst h₂s
              rw [List.set_set, List.set_set, set_getElem?_self hnote, set_getElem?_self htr]

/-- Witness for C1 (amended): `SetBpm 90` on a concrete valid state,
followed by its returned inverse `SetBpm 120`, lands back on the
original state. -/
theorem C1_roundTrip_nonDeletion_witness :
    (⟨⟨"p", ⟨4, 4⟩, 120, [⟨"a", [], 1⟩]⟩, some 0⟩ : EditorState) =
      ⟨⟨"p", ⟨4, 4⟩, 120, [⟨"a", [], 1⟩]⟩, some 0⟩ :=
  C1_roundTrip_nonDeletion
    ⟨⟨"p", ⟨4, 4⟩, 120, [⟨"a", [], 1⟩]⟩, some 0⟩ (.SetBpm 90)
    (fun i h => by cases h; decide) rfl
    ⟨⟨"p", ⟨4, 4⟩, 90, [⟨"a", [], 1⟩]⟩, some 0⟩
    ⟨⟨"p", ⟨4, 4⟩, 120, [⟨"a", [], 1⟩]⟩, some 0⟩
    (.SetBpm 120) (.SetBpm 90) rfl rfl


/-- **C5** — The `MTrk` length field written by `export_midi` is the
byte length of the serialized event stream only: the four end-of-track
bytes `00 FF 2F 00` are appended after the length has been written, so
they are not counted.  On a project with no tracks the chunk length
field is `00 00 00 00` although the chunk data holds the 4 end-of-track
bytes — the file disagrees with the claim (and with the Standard MIDI
File format, which counts all chunk data including the end-of-track
event). -/
theorem C5_mtrk_length_excludes_eot :
    exportMidi ⟨"p", ⟨4, 4⟩, 120, []⟩ =
      [77, 84, 104, 100, 0, 0, 0, 6, 0, 0, 0, 1, 4, 0,
       77, 84, 114, 107, 0, 0, 0, 0, 0, 0xFF, 0x2F, 0] ∧
    ((exportMidi ⟨"p", ⟨4, 4⟩, 120, []⟩).drop 18).take 4 = u32BE 0 ∧
    (exportMidi ⟨"p", ⟨4, 4⟩, 120, []⟩).drop 22 = [0, 0xFF, 0x2F, 0] ∧
    u32BE ((trackBody (deltaMultiplier 120) 0
        (Project.toMidi ⟨"p", ⟨4, 4⟩, 120, []⟩)).length + 4) ≠ u32BE 0 := by
  refine ⟨by decide, by decide, by decide, by decide⟩

/-- **C6** — counterexample: the delta-times written by `export_midi`
are not `round(Δoffset × delta_multiplier)`.  With `bpm = 480`
(`delta_multiplier = 1024`) and a note of length `3/2048` whole notes,
the `NoteOff` delta is `1.5` ticks: the code's `as u32` cast truncates
it to `1`, while the spec-modelled rounding variant writes `2`. -/
theorem C6_delta_round_counterexample :
    exportMidi ⟨"p", ⟨4, 4⟩, 480, [⟨"t", [⟨60, 127, 0, 3/2048⟩], 0⟩]⟩ ≠
      exportMidiRoundSpec ⟨"p", ⟨4, 4⟩, 480, [⟨"t", [⟨60, 127, 0, 3/2048⟩], 0⟩]⟩ := by
  have hms : (⟨"p", ⟨4, 4⟩, 480, [⟨"t", [⟨60, 127, 0, 3/2048⟩], 0⟩]⟩ : Project).toMidi =
      [⟨0, .ChangeInstrument 0⟩, ⟨0, .NoteOn 60 127⟩, ⟨3/2048, .NoteOff 60 127⟩] := by
    norm_num [Project.toMidi, rawMessages, noteMessages, List.insertionSort,
      List.orderedInsert, msgLe]
  have hf1024 : ⌊(1024 : ℚ) + 1 / 2⌋ = 1024 := Int.floor_eq_iff.mpr (by norm_num)
  have hmult : deltaMultiplier 480 = 1024 := by
    norm_num [deltaMultiplier, rustRound, hf1024, min_def]
    decide
  have hf32 : ⌊(3 : ℚ) / 2⌋ = 1 := Int.floor_eq_iff.mpr (by norm_num)
  have hv0 : rustF64ToU32 (0 : ℚ) = 0 := by
    simp [rustF64ToU32, Int.floor_zero]
  have hv1 : rustF64ToU32 ((3 : ℚ) / 2) = 1 := by
    rw [rustF64ToU32, hf32]
    decide
  have hfr : ⌊(3 : ℚ) / 2 + 1 / 2⌋ = 2 := Int.floor_eq_iff.mpr (by norm_num)
  have hr1 : Int.toNat (rustRound ((3 : ℚ) / 2)) = 2 := by
    rw [rustRound, if_pos (by norm_num), hfr]
    decide
  have hr0 : Int.toNat (rustRound (0 : ℚ)) = 0 := by
    rw [rustRound, if_pos (by norm_num)]
    norm_num
  have htb : trackBody 1024 0
      [⟨0, .ChangeInstrument 0⟩, ⟨0, .NoteOn 60 127⟩, ⟨3/2048, .NoteOff 60 127⟩] =
      [0, 192, 0, 0, 144, 60, 127, 1, 128, 60, 127] := by
    rw [trackBody, trackBody, trackBody, trackBody]
    norm_num [MidiMessageType.toBytes, hv0, hv1]
    decide
  have htbR : trackBodyRoundSpec 1024 0
      [⟨0, .ChangeInstrument 0⟩, ⟨0, .NoteOn 60 127⟩, ⟨3/2048, .NoteOff 60 127⟩] =
      [0, 192, 0, 0, 144, 60, 127, 2, 128, 60, 127] := by
    rw [trackBodyRoundSpec, trackBodyRoundSpec, trackBodyRoundSpec, trackBodyRoundSpec]
    norm_num [MidiMessageType.toBytes, hr0, hr1]
    decide
  have h1 : exportMidi ⟨"p", ⟨4, 4⟩, 480, [⟨"t", [⟨60, 127, 0, 3/2048⟩], 0⟩]⟩ =
      mthdBytes ++ u32BE 6 ++ u16BE 0 ++ u16BE 1 ++ u16BE 1024 ++ mtrkBytes ++
      u32BE 11 ++ [0, 192, 0, 0, 144, 60, 127, 1, 128, 60, 127] ++ [0, 0xFF, 0x2F, 0] := by
    simp only [exportMidi, hms, hmult, htb]
    norm_num
  have h2 : exportMidiRoundSpec ⟨"p", ⟨4, 4⟩, 480, [⟨"t", [⟨60, 127, 0, 3/2048⟩], 0⟩]⟩ =
      mthdBytes ++ u32BE 6 ++ u16BE 0 ++ u16BE 1 ++ u16BE 1024 ++ mtrkBytes ++
      u32BE 11 ++ [0, 192, 0, 0, 144, 60, 127, 2, 128, 60, 127] ++ [0, 0xFF, 0x2F, 0] := by
    simp only [exportMidiRoundSpec, hms, hmult, htbR]
    norm_num
  rw [h1, h2]
  decide

/-- **C6 (amended)** — Delta-time conversion: for every event in the
sorted message stream, the delta-time written before its status bytes is
`trunc(Δoffset_in_whole_notes × delta_multiplier)` — the truncating
(toward zero, saturating) `as u32` cast, not rounding — where
`delta_multiplier = round(480/bpm × 1024)` and `Δoffset` is the event's
absolute offset minus the previous event's absolute offset (`0` for the
first event). -/
theorem C6_delta_is_truncated (p : Project) :
    exportMidi p =
      mthdBytes ++ u32BE 6 ++ u16BE 0 ++ u16BE 1 ++ u16BE 1024 ++ mtrkBytes
        ++ u32BE (trackBody (deltaMultiplier p.bpm) 0 p.toMidi).length
        ++ trackBody (deltaMultiplier p.bpm) 0 p.toMidi ++ [0, 0xFF, 0x2F, 0] ∧
    ∀ (mult : ℕ) (lastOffset : ℚ) (msgs : List MidiMessage),
      trackBody mult lastOffset msgs =
        (deltaPairs lastOffset msgs).flatMap
          (fun d => toVarlen (rustF64ToU32 (d.1 * mult)) ++ d.2.type_.toBytes) := by
  refine ⟨rfl, ?_⟩
  intro mult lastOffset msgs
  induction msgs generalizing lastOffset with
  | nil => rfl
  | cons m rest ih =>
      simp only [trackBody, deltaPairs, List.flatMap_cons, ih, List.append_assoc]

/-- The filtered view of a stable insertion: inserting `x` with
`orderedInsert msgLe` prepends `x` to the offset-`q` sublist when
`x.offset = q` (every element `x` passes over has a strictly smaller
offset), and leaves that sublist unchanged otherwise. -/
theorem filter_orderedInsert_offset (q : ℚ) (x : MidiMessage) (l : List MidiMessage) :
    (List.orderedInsert msgLe x l).filter (fun m => decide (m.offset = q)) =
      if x.offset = q then x :: l.filter (fun m => decide (m.offset = q))
      else l.filter (fun m => decide (m.offset = q)) := by
  induction l with
  | nil =>
      by_cases hx : x.offset = q <;> simp [List.orderedInsert, List.filter, hx]
  | cons y ys ih =>
      by_cases hle : msgLe x y
      · by_cases hx : x.offset = q <;>
          simp [List.orderedInsert, if_pos hle, List.filter_cons, hx]
      · have hylt : y.offset < x.offset := lt_of_not_le hle
        by_cases hx : x.offset = q
        · have hy : ¬ y.offset = q := by rw [hx] at hylt; exact ne_of_lt hylt
          simp [List.orderedInsert, if_neg hle, List.filter_cons, hy, ih, hx]
        · by_cases hy : y.offset = q <;>
            simp [List.orderedInsert, if_neg hle, List.filter_cons, hy, ih, hx]

/-- Stability of the embedded sort: sorting does not change the
subsequence of messages holding any fixed offset. -/
theorem filter_insertionSort_offset (q : ℚ) (l : List MidiMessage) :
    (List.insertionSort msgLe l).filter (fun m => decide (m.offset = q)) =
      l.filter (fun m => decide (m.offset = q)) := by
  induction l with
  | nil => rfl
  | cons x xs ih =>
      by_cases hx : x.offset = q <;>
        simp [List.insertionSort, filter_orderedInsert_offset, hx, ih, List.filter_cons]

/-- **C8** — MIDI export is deterministic and tie-stable: exporting the
same `Project` twice yields byte-identical output (the encoder is a pure
function of the project), the sorted stream of `to_midi` is sorted by
offset, and for every offset value `q` the subsequence of events at
offset `q` equals the corresponding subsequence of the original emission
stream (track order, then note order, then `ProgramChange`, `NoteOn`,
`NoteOff`): the sort is stable. -/
theorem C8_export_deterministic_and_stable (p : Project) (q : ℚ) :
    exportMidi p = exportMidi p ∧
    List.Sorted msgLe p.toMidi ∧
    (p.toMidi).filter (fun m => decide (m.offset = q)) =
      (rawMessages p).filter (fun m => decide (m.offset = q)) :=
  ⟨rfl, List.sorted_insertionSort msgLe _, filter_insertionSort_offset q _⟩

/-- **C9** — counterexample: the `EditNote` command applies the new
length unconditionally — no floor.  `EditNote` with `new_length = 0` on
an existing note leaves the note with length `0`, which is neither
`MIN_INTERVAL` nor strictly positive. -/
theorem C9_editNote_no_floor_counterexample :
    (performActionImpl ⟨⟨"p", ⟨4, 4⟩, 120, [⟨"t", [⟨60, 127, 0, 1/4⟩], 0⟩]⟩, some 0⟩
        (.EditNote 0 0 0 60 0)).map
        (fun r => r.1.project.tracks.map fun t => t.notes.map Note.length) =
      some [[0]] ∧
    ¬ (0 : ℚ) = MIN_INTERVAL := by
  refine ⟨by decide, by norm_num [MIN_INTERVAL, MIN_DIVISION]⟩

/-- **C9 (amended)** — Only the pointer-drag path enforces the length
floor: after any `PianoRollMouseMove` drag step, if the drag arm
computed a length `< 1e-4` the stored length is exactly
`MIN_INTERVAL = 0.0625`, and the stored length is always strictly
positive.  (The `EditNote` command itself, by contrast, stores the given
length unconditionally — see the counterexample.) -/
theorem C9_drag_floor (op : NoteOperationType) (mouseX mouseY : ℚ) (note : Note) :
    ((dragRaw op mouseX mouseY note).length < 1 / 10000 →
      (dragUpdate op mouseX mouseY note).length = MIN_INTERVAL) ∧
    0 < (dragUpdate op mouseX mouseY note).length := by
  unfold dragUpdate lengthFloor
  by_cases h : (dragRaw op mouseX mouseY note).length < 1 / 10000
  · rw [if_pos h]
    refine ⟨fun _ => rfl, ?_⟩
    show (0 : ℚ) < MIN_INTERVAL
    rw [MIN_INTERVAL, MIN_DIVISION]
    norm_num
  · rw [if_neg h]
    exact ⟨fun hlt => absurd hlt h, lt_of_lt_of_le (by norm_num) (le_of_not_lt h)⟩

/-- Witness for C9 (amended): a right-edge drag far to the left computes
a negative length (`-3/8`) and the floor stores `MIN_INTERVAL`. -/
theorem C9_drag_floor_witness :
    (dragRaw (.DragRightEdge 0) (-320) 0 ⟨60, 127, 0, 1/2⟩).length < 1 / 10000 ∧
    (dragUpdate (.DragRightEdge 0) (-320) 0 ⟨60, 127, 0, 1/2⟩).length = MIN_INTERVAL ∧
    0 < (dragUpdate (.DragRightEdge 0) (-320) 0 ⟨60, 127, 0, 1/2⟩).length := by
  have hceil : ⌈(-16 : ℚ)⌉ = (-16 : ℤ) := by
    rw [show ((-16 : ℚ)) = ((-16 : ℤ) : ℚ) by norm_num, Int.ceil_intCast]
  have hraw : (dragRaw (.DragRightEdge 0) (-320) 0 ⟨60, 127, 0, 1/2⟩).length = -3/8 := by
    norm_num [dragRaw, mouseXToInterval, snap, rustFmod, truncQ, WHOLE_NOTE_WIDTH,
      MIN_INTERVAL, MIN_DIVISION, max_def, hceil]
  exact ⟨by rw [hraw]; norm_num,
    (C9_drag_floor (.DragRightEdge 0) (-320) 0 ⟨60, 127, 0, 1/2⟩).1 (by rw [hraw]; norm_num),
    (C9_drag_floor (.DragRightEdge 0) (-320) 0 ⟨60, 127, 0, 1/2⟩).2⟩

/-- **C10** — counterexample: `mouse_y_to_pitch` takes the ceiling of
the clamped value, not the nearest integer.  At `y = 22.5` (an exact
IEEE double, with `22.5 / 30 = 0.75` exact) the code yields
`ceil(126.25) = 127` while the claimed formula
`clamp(round(127 − y/30), 0, 127)` yields `126`. -/
theorem C10_pitch_round_counterexample :
    mouseYToPitch (45/2) = 127 ∧
    mouseYToPitchRoundSpec (45/2) = 126 ∧
    mouseYToPitch (45/2) ≠ mouseYToPitchRoundSpec (45/2) := by
  have hc : ⌈(505 : ℚ) / 4⌉ = 127 := Int.ceil_eq_iff.mpr (by norm_num)
  have hf : ⌊(505 : ℚ) / 4 + 1 / 2⌋ = 126 := Int.floor_eq_iff.mpr (by norm_num)
  have h1 : mouseYToPitch (45/2) = 127 := by
    norm_num [mouseYToPitch, NOTE_RECT_HEIGHT, max_def, min_def, hc]
    decide
  have h2 : mouseYToPitchRoundSpec (45/2) = 126 := by
    norm_num [mouseYToPitchRoundSpec, rustRound, NOTE_RECT_HEIGHT, max_def, min_def, hf]
    decide
  exact ⟨h1, h2, by rw [h1, h2]; decide⟩

/-- **C10 (amended)** — Pointer-to-pitch conversion: for every pointer
`y`, `mouse_y_to_pitch(y) = clamp(ceil(127 − y / NOTE_RECT_HEIGHT), 0,
127)` — the ceiling (the code clamps the real value first and then takes
the ceiling, which coincides with clamping the ceiling because the clamp
bounds are integers) — and the result is always an integer in
`[0, 127]`. -/
theorem C10_pitch_is_clamped_ceil (y : ℚ) :
    mouseYToPitch y = Int.toNat (min 127 (max 0 ⌈127 - y / NOTE_RECT_HEIGHT⌉)) ∧
    mouseYToPitch y ≤ 127 := by
  have key : ⌈min (127 : ℚ) (max 0 (127 - y / NOTE_RECT_HEIGHT))⌉ =
      min 127 (max 0 ⌈127 - y / NOTE_RECT_HEIGHT⌉) := by
    set v : ℚ := 127 - y / NOTE_RECT_HEIGHT with hv
    have hmax : ⌈max (0 : ℚ) v⌉ = max 0 ⌈v⌉ := by
      rcases le_total v 0 with h | h
      · rw [max_eq_left h, max_eq_left (Int.ceil_le.mpr (by exact_mod_cast h))]
        norm_num
      · rw [max_eq_right h, max_eq_right]
        have : (0 : ℤ) = ⌈(0 : ℚ)⌉ := by norm_num
        rw [this]
        exact Int.ceil_le_ceil h
    have hmin : ⌈min (127 : ℚ) (max 0 v)⌉ = min 127 ⌈max (0 : ℚ) v⌉ := by
      rcases le_total (127 : ℚ) (max 0 v) with h | h
      · rw [min_eq_left h, min_eq_left]
        · norm_num
        · have : (127 : ℤ) = ⌈(127 : ℚ)⌉ := by norm_num
          rw [this]
          exact Int.ceil_le_ceil h
      · rw [min_eq_right h, min_eq_right]
        have h127 : ⌈(127 : ℚ)⌉ = 127 := by norm_num
        rw [show (127 : ℤ) = ⌈(127 : ℚ)⌉ from h127.symm]
        exact Int.ceil_le_ceil h
    rw [hmin, hmax]
  constructor
  · rw [mouseYToPitch, key]
  · rw [mouseYToPitch, key]
    have hle : min 127 (max 0 ⌈127 - y / NOTE_RECT_HEIGHT⌉) ≤ 127 := min_le_left _ _
    omega

end WME
